import Mathlib

/-!
# Verification of the Encryptors tutoring client core

This file gives a shallow embedding, in Lean 4, of the response post-processing
and turn-taking core of the Encryptors repository (`src/App.tsx` together with
the Gemini service wrapper), and proves properties of that embedding.

Texts are modelled as `List Char` (the character sequence of a JavaScript
string).  The JavaScript regular expressions of the source are modelled by
hand-rolled scanners with the same matching semantics:

* `/(give|write|show).*(code|answer|solution|full)/i` — `cheatScan`.  Note that
  `.` in JavaScript (without the `s` flag) does not match line terminators, so
  the verb and the noun must sit on one line; the scanner mirrors that.
* ``/```(?:mermaid|flowchart|text|sequenceDiagram)?\s*([\s\S]*?)```/gi`` —
  `fencedRegions` (built on the fuelled scanner `fScanF`).
* `/\[CONCEPTUAL_VISUAL:\s*([^\]]+)\]/gi` — `conceptualScan` (built on `cScanF`).

Case-insensitive matching (`i` flag) is modelled for the ASCII range by
`charCI`; every pattern in the source is ASCII.  Whitespace (`\s`, `trim`) is
modelled by `Char.isWhitespace` (space, tab, CR, LF), which covers every input
appearing in the specification's test properties.

Message ids and timestamps come from the wall clock (`Date.now()`), and the
presentational fields (`input`, `activeTab`, `mobileView`, knowledge level) are
out of the specified core; they are omitted from the state.  External
collaborators (the chat backend, the image backend, `window.aistudio`) are
modelled as oracles: a `BackendOutcome` for one chat call, a `Nat → GenResult`
oracle giving the outcome of the n-th image-generation call of a turn, and a
`hasAistudio : Bool` flag for the presence of the key-selection collaborator.
-/

/-- Characters of a string literal. -/
def s2l (s : String) : List Char := s.toList

/-- ASCII case-insensitive character match, pattern character `p` (written in
lowercase) against text character `c`.  Models the JavaScript `i` flag for the
ASCII patterns used by the source. -/
def charCI (p c : Char) : Bool :=
  c == p || (decide (65 ≤ c.toNat) && decide (c.toNat ≤ 90) && c.toNat + 32 == p.toNat)

/-- Case-insensitive prefix test: does the text (second argument) start with
the lowercase pattern (first argument)? -/
def isPrefixCI : List Char → List Char → Bool
  | [], _ => true
  | _ :: _, [] => false
  | p :: ps, c :: cs => charCI p c && isPrefixCI ps cs

/-- Case-insensitive containment: models `text.toLowerCase().includes(pat)`
and case-insensitive regex search for a literal pattern. -/
def containsCI (pat : List Char) : List Char → Bool
  | [] => isPrefixCI pat []
  | c :: cs => isPrefixCI pat (c :: cs) || containsCI pat cs

/-- Exact containment of a literal character sequence: models
`text.includes(pat)`. -/
def containsSeq (pat : List Char) : List Char → Bool
  | [] => pat.isEmpty
  | c :: cs => pat.isPrefixOf (c :: cs) || containsSeq pat cs

/-- Index of the first occurrence of a character, if any. -/
def findChar (ch : Char) : List Char → Option Nat
  | [] => none
  | c :: cs => if c == ch then some 0 else (findChar ch cs).map (· + 1)

/-- Index of the first occurrence of a literal character sequence, if any. -/
def findSeq (pat : List Char) : List Char → Option Nat
  | [] => none
  | c :: cs => if pat.isPrefixOf (c :: cs) then some 0 else (findSeq pat cs).map (· + 1)

/-- Model of JavaScript `String.prototype.trim` (ASCII whitespace). -/
def trimList (l : List Char) : List Char :=
  ((l.dropWhile Char.isWhitespace).reverse.dropWhile Char.isWhitespace).reverse

/-! ## Directive Extractor (`extractVisualization`, `src/App.tsx` lines 135–153, 165–190) -/

/-- The three backticks opening and closing a fenced region. -/
def bt3 : List Char := ['`', '`', '`']

/-- Drop the optional fence tag `(?:mermaid|flowchart|text|sequenceDiagram)?`
(case-insensitive) right after the opening backticks. -/
def dropTag (l : List Char) : List Char :=
  if isPrefixCI (s2l ("mermaid")) l then l.drop 7
  else if isPrefixCI (s2l ("flowchart")) l then l.drop 9
  else if isPrefixCI (s2l ("text")) l then l.drop 4
  else if isPrefixCI (s2l ("sequencediagram")) l then l.drop 15
  else l

/-- Fuelled scanner for ``/```(?:mermaid|flowchart|text|sequenceDiagram)?\s*([\s\S]*?)```/gi``:
returns the list of captured groups (the raw inner texts) of the successive
matches, exactly as the `exec` loop of the source visits them.  After an
opening fence the optional tag and then maximal whitespace are consumed, the
lazy group runs up to the next occurrence of three backticks, and scanning
resumes after the closing fence.  An opening fence with no closing fence never
matches (and then no later match is possible, since no backtick occurs between
the opening fence and the group).  The fuel only serves termination; it is
always at least the length of the remaining text. -/
def fScanF : Nat → List Char → List (List Char)
  | 0, _ => []
  | _ + 1, [] => []
  | fuel + 1, c :: cs =>
    if bt3.isPrefixOf (c :: cs) then
      let r := dropTag (List.drop 3 (c :: cs))
      let r2 := r.dropWhile Char.isWhitespace
      match findSeq bt3 r2 with
      | some k => List.take k r2 :: fScanF fuel (List.drop (k + 3) r2)
      | none => []
    else fScanF fuel cs

/-- The fenced code-like regions (raw captured groups) of a text, in document
order. -/
def fencedRegions (l : List Char) : List (List Char) := fScanF l.length l

/-- The keyword allow-list of
`/^(graph|flowchart|sequenceDiagram|classDiagram|stateDiagram|erDiagram|gantt|pie|gitGraph|journey|C4Context)/i`. -/
def diagramKeywords : List (List Char) :=
  [s2l ("graph"), s2l ("flowchart"), s2l ("sequencediagram"), s2l ("classdiagram"),
   s2l ("statediagram"), s2l ("erdiagram"), s2l ("gantt"), s2l ("pie"),
   s2l ("gitgraph"), s2l ("journey"), s2l ("c4context")]

/-- Does a (trimmed) fenced content qualify as diagram source?  Mirrors
`content.match(/^(graph|…)/i) || content.includes('-->')` in the source. -/
def isDiagramContent (content : List Char) : Bool :=
  diagramKeywords.any (fun kw => isPrefixCI kw content) || containsSeq (s2l ("-->")) content

/-- The diagram candidates of one response text: for each fenced region, the
trimmed inner text, kept exactly when it qualifies as diagram source.  This is
the body of the `while ((match = mermaidRegex.exec(text)) …)` loop. -/
def mermaidItems (text : List Char) : List (List Char) :=
  (fencedRegions text).filterMap (fun g =>
    let content := trimList g
    if isDiagramContent content then some content else none)

/-- The tag of the conceptual-image directive, as the lowercase pattern of
`/\[CONCEPTUAL_VISUAL:\s*([^\]]+)\]/gi`. -/
def cvTag : List Char :=
  ['[', 'c', 'o', 'n', 'c', 'e', 'p', 't', 'u', 'a', 'l', '_', 'v', 'i', 's', 'u', 'a', 'l', ':']

/-- The canonical (uppercase) spelling of the conceptual-image tag as it
occurs in texts; `cvTag` is its lowercase image. -/
def cvTagU : List Char :=
  ['[', 'C', 'O', 'N', 'C', 'E', 'P', 'T', 'U', 'A', 'L', '_', 'V', 'I', 'S', 'U', 'A', 'L', ':']

/-- Fuelled scanner for `/\[CONCEPTUAL_VISUAL:\s*([^\]]+)\]/gi`: the list of
trimmed prompt payloads of the successive matches.  At a position where the
19-character tag matches case-insensitively, the engine matches `\s*([^\]]+)\]`
against the remainder: this succeeds exactly when the first `]` of the
remainder sits at index `k ≥ 1`, and the trimmed captured group is then the
trimmed text before that `]` (greedy `\s*` with backtracking hands at least one
character to the group, which never crosses a `]`; trimming makes the two
descriptions agree).  On success scanning resumes after the `]`; on failure
the engine advances one character. -/
def cScanF : Nat → List Char → List (List Char)
  | 0, _ => []
  | _ + 1, [] => []
  | fuel + 1, c :: cs =>
    if isPrefixCI cvTag (c :: cs) then
      let r := List.drop 19 (c :: cs)
      match findChar (']') r with
      | some k =>
        if 1 ≤ k then trimList (List.take k r) :: cScanF fuel (List.drop (k + 1) r)
        else cScanF fuel cs
      | none => cScanF fuel cs
    else cScanF fuel cs

/-- The image-request candidates (trimmed prompts) of one response text, in
document order. -/
def conceptualScan (l : List Char) : List (List Char) := cScanF l.length l

/-! ## Visualization Item Builder (`src/App.tsx` lines 155–199) -/

/-- The kind of a visualization item (`type: 'mermaid' | 'image'`). -/
inductive VKind
  | mermaid
  | image
  deriving DecidableEq

/-- A visualization feed item (`VisualItem` of `src/types.ts`); id and
timestamp are generated from the clock and not modelled. -/
structure VisualItem where
  kind : VKind
  content : List Char
  deriving DecidableEq

/-- Outcome of one call of the image-generation collaborator
(`generateImage`): a non-empty image reference, an empty (`undefined`) result,
or a thrown error whose `auth` flag records the authorization-denied signal
(`status === 403`, a `'403'` or `'Permission denied'` message). -/
inductive GenResult
  | ok (img : List Char)
  | empty
  | err (auth : Bool)
  deriving DecidableEq

/-- Processing of one conceptual-image candidate by the Builder: the
`try { … generateImage … } catch { … } finally { setIsGeneratingImage(false) }`
body of the `for (const cMatch of conceptualMatches)` loop.  Returns the items
pushed for this candidate, whether `window.aistudio.openSelectKey()` was
triggered, and the value of the in-progress flag after the candidate.  The
function is total: no outcome of the generation call escapes as an
exception. -/
def processConceptual (gr : GenResult) (hasAistudio : Bool) :
    List VisualItem × Bool × Bool :=
  match gr with
  | GenResult.ok img => ([⟨VKind.image, img⟩], false, false)
  | GenResult.empty => ([], false, false)
  | GenResult.err auth => ([], hasAistudio && auth, false)

/-- Sequential resolution of the image-request candidates of one response:
the candidates are awaited one at a time, the `i`-th candidate consuming the
`i`-th result of the generation oracle.  Returns the produced items, in
candidate order, and the number of key-selection triggers. -/
def conceptLoop (gen : Nat → GenResult) (hasAistudio : Bool) :
    List (List Char) → Nat → List VisualItem × Nat
  | [], _ => ([], 0)
  | _ :: ps, i =>
    let r := processConceptual (gen i) hasAistudio
    let rest := conceptLoop gen hasAistudio ps (i + 1)
    (r.1 ++ rest.1, (if r.2.1 then 1 else 0) + rest.2)

/-! ## Conversation state (`src/App.tsx` lines 95–125, `src/types.ts`) -/

/-- Message role (`'user' | 'model' | 'system'` of `src/types.ts`). -/
inductive Role
  | user
  | model
  | system
  deriving DecidableEq

/-- One conversation turn; id and timestamp (wall clock) are not modelled. -/
structure Msg where
  role : Role
  text : List Char
  deriving DecidableEq

/-- The mutable application state touched by the specified core: messages,
the in-flight chat flag (`isLoading`, the AwaitingBackend state), MentorState
(`mentorMode`), the visualization feed, the image-generation in-progress flag,
and the toast notice. -/
structure AppState where
  messages : List Msg
  isLoading : Bool
  mentorMode : Bool
  visualization : List VisualItem
  isGeneratingImage : Bool
  showToast : Bool
  toastMessage : List Char
  deriving DecidableEq

/-- The whole `extractVisualization` callback: diagram extraction, the inline
image part, then the sequential conceptual-image loop; if any item was
produced, the new items are appended to the feed.  Returns the new state and
the number of key-selection triggers. -/
def extractVisualization (st : AppState) (text : List Char)
    (imagePart : Option (List Char)) (gen : Nat → GenResult)
    (hasAistudio : Bool) : AppState × Nat :=
  let mItems := (mermaidItems text).map (fun c => (⟨VKind.mermaid, c⟩ : VisualItem))
  let inlineItems : List VisualItem :=
    match imagePart with
    | some p => [⟨VKind.image, p⟩]
    | none => []
  let prompts := conceptualScan text
  let cres := conceptLoop gen hasAistudio prompts 0
  let newItems := mItems ++ inlineItems ++ cres.1
  let flagAfter := if prompts.isEmpty then st.isGeneratingImage else false
  ({ st with
      isGeneratingImage := flagAfter,
      visualization :=
        if newItems.isEmpty then st.visualization else st.visualization ++ newItems },
   cres.2)

/-! ## Turn Controller (`handleSendMessage`, `src/App.tsx` lines 202–240) -/

/-- Scan for a noun of `(code|answer|solution|full)` at or after the current
position, without crossing a line terminator: the `.*` of the cheat regex has
no `s` flag, so it does not match `\n` or `\r`. -/
def nounAheadSameLine : List Char → Bool
  | [] => false
  | c :: cs =>
    if isPrefixCI (s2l ("code")) (c :: cs) || isPrefixCI (s2l ("answer")) (c :: cs)
        || isPrefixCI (s2l ("solution")) (c :: cs) || isPrefixCI (s2l ("full")) (c :: cs) then
      true
    else if c == ('\n') || c == ('\r') then false
    else nounAheadSameLine cs

/-- Does one of `(give|write|show)` match at this position, with a noun later
on the same line? -/
def verbCheck (l : List Char) : Bool :=
  (isPrefixCI (s2l ("give")) l && nounAheadSameLine (l.drop 4))
    || (isPrefixCI (s2l ("write")) l && nounAheadSameLine (l.drop 5))
    || (isPrefixCI (s2l ("show")) l && nounAheadSameLine (l.drop 4))

/-- `cheatRegex.test(messageText)` for
`/(give|write|show).*(code|answer|solution|full)/i`. -/
def cheatScan : List Char → Bool
  | [] => false
  | c :: cs => verbCheck (c :: cs) || cheatScan cs

/-- The full anti-cheating gate of `handleSendMessage`: the cheat regex
matches and none of the mitigating words occurs (case-insensitively). -/
def cheatGate (t : List Char) : Bool :=
  cheatScan t && !(containsCI (s2l ("logic")) t) && !(containsCI (s2l ("explain")) t)
    && !(containsCI (s2l ("diagram")) t)

/-- The requesting-finished-code heuristic as the specification's words
describe it, for comparison with the source: a give/write/show verb followed
*later in the text* (anywhere, lines not distinguished) by
code/answer/solution/full, case-insensitively.  `specNounAhead` is the
unrestricted noun scan. -/
def specNounAhead : List Char → Bool
  | [] => false
  | c :: cs =>
    if isPrefixCI (s2l ("code")) (c :: cs) || isPrefixCI (s2l ("answer")) (c :: cs)
        || isPrefixCI (s2l ("solution")) (c :: cs) || isPrefixCI (s2l ("full")) (c :: cs) then
      true
    else specNounAhead cs

/-- The spec-worded heuristic (see `specNounAhead`): verb occurrence, noun
occurrence anywhere later in the text. -/
def specCheatHeuristic : List Char → Bool
  | [] => false
  | c :: cs =>
    ((isPrefixCI (s2l ("give")) (c :: cs) && specNounAhead (List.drop 4 (c :: cs)))
      || (isPrefixCI (s2l ("write")) (c :: cs) && specNounAhead (List.drop 5 (c :: cs)))
      || (isPrefixCI (s2l ("show")) (c :: cs) && specNounAhead (List.drop 4 (c :: cs))))
    || specCheatHeuristic cs

/-- Mentor status declared by the backend (`'searching' | 'satisfied'`). -/
inductive MentorStatus
  | searching
  | satisfied
  deriving DecidableEq

/-- Outcome of one chat-backend call (`sendMessageToGemini`): a resolved
`ChatResponse` or a rejection. -/
inductive BackendOutcome
  | ok (text : List Char) (mentorStatus : Option MentorStatus) (imagePart : Option (List Char))
  | err
  deriving DecidableEq

/-- Result of one invocation of the submit entry point: the new state,
whether the chat backend was called, and how many key-selection triggers the
turn produced. -/
structure TurnOut where
  state : AppState
  backendCalled : Bool
  keySelects : Nat
  deriving DecidableEq

/-- `customPrompt || input` (JavaScript truthiness: an empty custom prompt
falls back to the typed input). -/
def submittedText (input : List Char) (customPrompt : Option (List Char)) : List Char :=
  if (customPrompt.getD []).isEmpty then input else customPrompt.getD []

/-- Truthiness of `customPrompt`: the submission counts as system-generated
exactly when a non-empty custom prompt was passed. -/
def isCustomPrompt (customPrompt : Option (List Char)) : Bool :=
  !(customPrompt.getD []).isEmpty

/-- `"I see. Let's explore the structure of this logic."` -/
def fallbackAiText : List Char := s2l ("I see. Let\x27s explore the structure of this logic.")

/-- `"Logical connection reset. Please rephrase."` -/
def backendErrorText : List Char := s2l ("Logical connection reset. Please rephrase.")

/-- `"Think First! I cannot provide code directly. Let's discuss the logic."` -/
def rejectToastText : List Char :=
  s2l ("Think First! I cannot provide code directly. Let\x27s discuss the logic.")

/-- One invocation of `handleSendMessage`: blank guard, anti-cheating gate
(user submissions only), append of the user message, the chat-backend call
with its success and failure exits, the extraction pipeline, and the
MentorState update. -/
def handleSendMessage (st : AppState) (input : List Char)
    (customPrompt : Option (List Char)) (backend : BackendOutcome)
    (gen : Nat → GenResult) (hasAistudio : Bool) : TurnOut :=
  let messageText := submittedText input customPrompt
  if (trimList messageText).isEmpty then ⟨st, false, 0⟩
  else if !(isCustomPrompt customPrompt) && cheatGate messageText then
    ⟨{ st with toastMessage := rejectToastText, showToast := true }, false, 0⟩
  else
    let st1 := { st with
      messages := st.messages ++ [(⟨Role.user, messageText⟩ : Msg)], isLoading := true }
    match backend with
    | BackendOutcome.ok rtext ms ip =>
      let aiText := if rtext.isEmpty then fallbackAiText else rtext
      let st2 := { st1 with messages := st1.messages ++ [(⟨Role.model, aiText⟩ : Msg)] }
      let eres := extractVisualization st2 rtext ip gen hasAistudio
      let st4 :=
        match ms with
        | some MentorStatus.satisfied => { eres.1 with mentorMode := true }
        | some MentorStatus.searching => { eres.1 with mentorMode := false }
        | none => eres.1
      ⟨{ st4 with isLoading := false }, true, eres.2⟩
    | BackendOutcome.err =>
      ⟨{ st1 with
          messages := st1.messages ++ [(⟨Role.model, backendErrorText⟩ : Msg)],
          isLoading := false },
        true, 0⟩

/-! ## Chat-backend wrapper (`sendMessageToGemini`, service lines 761–789) -/

/-- `'updateMentorStatus'`. -/
def updateMentorStatusName : List Char := s2l ("updateMentorStatus")

/-- A function call declared in a response part; the source reads
`call.args as { status: 'searching' | 'satisfied' }`. -/
structure FnCall where
  name : List Char
  statusArg : MentorStatus
  deriving DecidableEq

/-- One part of the first candidate's content in the raw backend response. -/
structure RespPart where
  text : Option (List Char)
  functionCall : Option FnCall
  inlineData : Option (List Char)
  deriving DecidableEq

/-- The `ChatResponse` value returned by the wrapper. -/
structure ChatResp where
  text : List Char
  mentorStatus : Option MentorStatus
  imagePart : Option (List Char)
  deriving DecidableEq

/-- `parts.filter(p => p.functionCall).map(p => p.functionCall)`. -/
def partFunctionCalls (parts : List RespPart) : List FnCall :=
  parts.filterMap (fun p => p.functionCall)

/-- The `for (const call of functionCalls)` loop: each `updateMentorStatus`
call overwrites `mentorStatus`, so the last one wins. -/
def mentorStatusOfCalls (calls : List FnCall) : Option MentorStatus :=
  calls.foldl
    (fun acc c => if c.name = updateMentorStatusName then some c.statusArg else acc) none

/-- The `for (const part of …parts)` loop accumulating `finalText`
(`if (part.text) finalText += part.text`). -/
def joinedText (parts : List RespPart) : List Char :=
  parts.foldl
    (fun acc p =>
      match p.text with
      | some t => if t.isEmpty then acc else acc ++ t
      | none => acc) []

/-- The same loop's `imagePart` accumulation: the last `inlineData` wins. -/
def lastInlineData (parts : List RespPart) : Option (List Char) :=
  parts.foldl
    (fun acc p =>
      match p.inlineData with
      | some d => some d
      | none => acc) none

/-- `"I have updated my mentor status and am analyzing your logic further."` -/
def statusUpdateSentence : List Char :=
  s2l ("I have updated my mentor status and am analyzing your logic further.")

/-- Post-processing of the raw backend response by `sendMessageToGemini`,
over the parts of `response.candidates?.[0]?.content` (an absent candidate is
the empty part list). -/
def sendMessageToGeminiPost (parts : List RespPart) : ChatResp :=
  let calls := partFunctionCalls parts
  let ms := mentorStatusOfCalls calls
  let t0 := joinedText parts
  let finalText := if !calls.isEmpty && t0.isEmpty then statusUpdateSentence else t0
  ⟨finalText, ms, lastInlineData parts⟩

/-- A concrete state for closed test evaluations. -/
def testState : AppState :=
  { messages := [], isLoading := false, mentorMode := false, visualization := [],
    isGeneratingImage := false, showToast := false, toastMessage := [] }

/-- A concrete generation oracle for closed test evaluations. -/
def genEmpty : Nat → GenResult := fun _ => GenResult.empty

/-! ## Helper lemmas -/

/-- The 18 characters of `cvTag` after the opening bracket. -/
def cvTagTailL : List Char :=
  ['c', 'o', 'n', 'c', 'e', 'p', 't', 'u', 'a', 'l', '_', 'v', 'i', 's', 'u', 'a', 'l', ':']

/-- The 18 characters of `cvTagU` after the opening bracket. -/
def cvTagTailU : List Char :=
  ['C', 'O', 'N', 'C', 'E', 'P', 'T', 'U', 'A', 'L', '_', 'V', 'I', 'S', 'U', 'A', 'L', ':']

theorem cvTag_cons : cvTag = ('[') :: cvTagTailL := rfl

theorem cvTagU_cons : cvTagU = ('[') :: cvTagTailU := rfl

theorem isPrefixCI_cvTagU (rest : List Char) :
    isPrefixCI cvTag (cvTagU ++ rest) = true := rfl

theorem drop19_cvTagU (rest : List Char) :
    List.drop 19 (cvTagU ++ rest) = rest := rfl

theorem charCI_bracket (c : Char) (h : c ≠ ('[')) : charCI ('[') c = false := by
  have h91 : ('[').toNat = 91 := rfl
  simp only [charCI, h91, Bool.or_eq_false_iff, beq_eq_false_iff_ne, ne_eq, h,
    not_false_eq_true, true_and, Bool.and_eq_false_iff, decide_eq_false_iff_not, not_le]
  omega

theorem isPrefixCI_cvTag_ne_bracket (c : Char) (rest : List Char) (h : c ≠ ('[')) :
    isPrefixCI cvTag (c :: rest) = false := by
  rw [cvTag_cons]
  simp [isPrefixCI, charCI_bracket c h]

/-- A character that case-insensitively matches a lowercase-letter pattern
character is not whitespace. -/
theorem charCI_letter_not_ws (p c : Char) (hp : 97 ≤ p.toNat) (h : charCI p c = true) :
    c.isWhitespace = false := by
  simp only [charCI, Bool.or_eq_true, Bool.and_eq_true, beq_iff_eq, decide_eq_true_eq] at h
  have hsp : (' ').toNat = 32 := rfl
  have htb : ('\t').toNat = 9 := rfl
  have hcr : ('\r').toNat = 13 := rfl
  have hlf : ('\n').toNat = 10 := rfl
  have hb : 97 ≤ c.toNat ∨ (65 ≤ c.toNat ∧ c.toNat ≤ 90) := by
    rcases h with h | ⟨⟨h1, h2⟩, h3⟩
    · subst h
      exact Or.inl hp
    · exact Or.inr ⟨h1, h2⟩
  simp only [Char.isWhitespace, Bool.or_eq_false_iff, decide_eq_false_iff_not]
  refine ⟨⟨⟨?_, ?_⟩, ?_⟩, ?_⟩ <;> intro he <;> rw [he] at hb <;>
    simp only [hsp, htb, hcr, hlf] at hb <;> omega

/-- A list containing a non-whitespace character has a non-empty trim. -/
theorem trimList_not_empty (l : List Char) (c : Char) (hc : c ∈ l)
    (hws : c.isWhitespace = false) : (trimList l).isEmpty = false := by
  rw [Bool.eq_false_iff]
  intro he
  rw [List.isEmpty_iff] at he
  unfold trimList at he
  rw [List.reverse_eq_nil_iff, List.dropWhile_eq_nil_iff] at he
  have hsplit : c ∈ List.takeWhile Char.isWhitespace l ++ List.dropWhile Char.isWhitespace l := by
    rw [List.takeWhile_append_dropWhile]
    exact hc
  rcases List.mem_append.1 hsplit with h | h
  · have := List.mem_takeWhile_imp h
    rw [hws] at this
    exact Bool.false_ne_true this
  · have := he c (List.mem_reverse.2 h)
    rw [hws] at this
    exact Bool.false_ne_true this

theorem verbCheck_head_not_ws (c : Char) (cs : List Char)
    (h : verbCheck (c :: cs) = true) : c.isWhitespace = false := by
  have hg : s2l ("give") = ['g', 'i', 'v', 'e'] := rfl
  have hw : s2l ("write") = ['w', 'r', 'i', 't', 'e'] := rfl
  have hs : s2l ("show") = ['s', 'h', 'o', 'w'] := rfl
  simp only [verbCheck, hg, hw, hs, isPrefixCI, Bool.or_eq_true, Bool.and_eq_true] at h
  rcases h with (⟨⟨h1, _⟩, _⟩ | ⟨⟨h1, _⟩, _⟩) | ⟨⟨h1, _⟩, _⟩
  · exact charCI_letter_not_ws 'g' c (by decide) h1
  · exact charCI_letter_not_ws 'w' c (by decide) h1
  · exact charCI_letter_not_ws 's' c (by decide) h1

theorem cheatScan_exists_not_ws (l : List Char) (h : cheatScan l = true) :
    ∃ c ∈ l, c.isWhitespace = false := by
  induction l with
  | nil => simp [cheatScan] at h
  | cons c cs ih =>
    rw [show cheatScan (c :: cs) = (verbCheck (c :: cs) || cheatScan cs) from rfl,
      Bool.or_eq_true] at h
    rcases h with h | h
    · exact ⟨c, List.mem_cons_self c cs, verbCheck_head_not_ws c cs h⟩
    · obtain ⟨d, hd, hdws⟩ := ih h
      exact ⟨d, List.mem_cons_of_mem c hd, hdws⟩

/-- A message caught by the anti-cheating gate is not blank, so the blank
guard of `handleSendMessage` does not fire first. -/
theorem cheatGate_not_blank (t : List Char) (h : cheatGate t = true) :
    (trimList t).isEmpty = false := by
  have hscan : cheatScan t = true := by
    simp only [cheatGate, Bool.and_eq_true] at h
    exact h.1.1.1
  obtain ⟨c, hc, hws⟩ := cheatScan_exists_not_ws t hscan
  exact trimList_not_empty t c hc hws

/-- The conceptual scanner does not depend on the fuel, as long as the fuel
covers the text length. -/
theorem cScanF_congr : ∀ f g l, l.length ≤ f → l.length ≤ g → cScanF f l = cScanF g l := by
  intro f
  induction f with
  | zero =>
    intro g l h1 _
    rw [List.length_eq_zero.1 (Nat.le_zero.1 h1)]
    cases g <;> rfl
  | succ f ih =>
    intro g l h1 h2
    match l with
    | [] => cases g <;> rfl
    | c :: cs =>
      have hlc : cs.length + 1 ≤ f + 1 := by simpa using h1
      obtain ⟨g', rfl⟩ : ∃ g', g = g' + 1 := by
        cases g with
        | zero => simp at h2
        | succ g' => exact ⟨g', rfl⟩
      have hlg : cs.length + 1 ≤ g' + 1 := by simpa using h2
      simp only [cScanF]
      by_cases hpre : isPrefixCI cvTag (c :: cs) = true
      · rw [if_pos hpre, if_pos hpre]
        cases hfind : findChar (']') (List.drop 19 (c :: cs)) with
        | none =>
          simp only [hfind]
          exact ih g' cs (by omega) (by omega)
        | some k =>
          simp only [hfind]
          by_cases hk : 1 ≤ k
          · rw [if_pos hk, if_pos hk]
            have hdl : (List.drop (k + 1) (List.drop 19 (c :: cs))).length ≤ cs.length := by
              simp only [List.length_drop, List.length_cons]
              omega
            rw [ih g' (List.drop (k + 1) (List.drop 19 (c :: cs))) (by omega) (by omega)]
          · rw [if_neg hk, if_neg hk]
            exact ih g' cs (by omega) (by omega)
      · rw [if_neg hpre, if_neg hpre]
        exact ih g' cs (by omega) (by omega)

/-- A text without a (case-insensitive) occurrence of the conceptual-image
tag yields no image-request candidate, for any fuel. -/
theorem cScanF_nil_of_no_tag : ∀ f l, containsCI cvTag l = false → cScanF f l = [] := by
  intro f l
  induction l generalizing f with
  | nil => intro _; cases f <;> rfl
  | cons c cs ih =>
    intro h
    rw [show containsCI cvTag (c :: cs)
        = (isPrefixCI cvTag (c :: cs) || containsCI cvTag cs) from rfl,
      Bool.or_eq_false_iff] at h
    cases f with
    | zero => rfl
    | succ f =>
      simp only [cScanF, h.1, Bool.false_eq_true, if_false]
      exact ih f h.2

/-- A text without three consecutive backticks has no fenced region, for any
fuel. -/
theorem fScanF_nil_of_no_fence : ∀ f l, containsSeq bt3 l = false → fScanF f l = [] := by
  intro f l
  induction l generalizing f with
  | nil => intro _; cases f <;> rfl
  | cons c cs ih =>
    intro h
    rw [show containsSeq bt3 (c :: cs)
        = (bt3.isPrefixOf (c :: cs) || containsSeq bt3 cs) from rfl,
      Bool.or_eq_false_iff] at h
    cases f with
    | zero => rfl
    | succ f =>
      simp only [fScanF, h.1, Bool.false_eq_true, if_false]
      exact ih f h.2

/-- Scanning steps over a position where the conceptual tag does not match. -/
theorem conceptualScan_cons_of_ne (c : Char) (cs : List Char)
    (h : isPrefixCI cvTag (c :: cs) = false) :
    conceptualScan (c :: cs) = conceptualScan cs := by
  simp only [conceptualScan, List.length_cons, cScanF, h, Bool.false_eq_true, if_false]

/-- The first occurrence of a character after a clean prefix. -/
theorem findChar_first (ch : Char) (mid post : List Char) (h : ch ∉ mid) :
    findChar ch (mid ++ ch :: post) = some mid.length := by
  induction mid with
  | nil => simp [findChar]
  | cons m ms ih =>
    have hm : (m == ch) = false := by
      simp only [beq_eq_false_iff_ne, ne_eq]
      intro he
      exact h (he ▸ List.mem_cons_self m ms)
    simp only [List.cons_append, findChar, hm, Bool.false_eq_true, if_false]
    rw [show ms.append (ch :: post) = ms ++ ch :: post from rfl,
      ih (fun hx => h (List.mem_cons_of_mem m hx))]
    rfl

theorem isPrefixCI_cvTag_cons (rest : List Char) :
    isPrefixCI cvTag (('[') :: (cvTagTailU ++ rest)) = true := rfl

theorem drop19_cons (rest : List Char) :
    List.drop 19 (('[') :: (cvTagTailU ++ rest)) = rest := rfl

/-- One unfolding step of the scanner at a matching tag position. -/
theorem cScanF_match_step (f : Nat) (rest : List Char) :
    cScanF (f + 1) (('[') :: (cvTagTailU ++ rest))
      = match findChar (']') rest with
        | some k =>
          if 1 ≤ k then trimList (List.take k rest) :: cScanF f (List.drop (k + 1) rest)
          else cScanF f (cvTagTailU ++ rest)
        | none => cScanF f (cvTagTailU ++ rest) := by
  simp only [cScanF, isPrefixCI_cvTag_cons, if_true, drop19_cons]

/-- A well-formed conceptual directive at the head of the text matches: the
trimmed enclosed text becomes one candidate and scanning resumes after the
closing bracket. -/
theorem conceptualScan_head (mid post : List Char) (h1 : mid ≠ []) (h2 : (']') ∉ mid) :
    conceptualScan (cvTagU ++ (mid ++ (']') :: post)) = trimList mid :: conceptualScan post := by
  rw [cvTagU_cons, List.cons_append]
  unfold conceptualScan
  rw [List.length_cons, cScanF_match_step]
  rw [findChar_first (']') mid post h2]
  simp only []
  rw [if_pos (show 1 ≤ mid.length by have := List.length_pos.2 h1; omega)]
  rw [List.take_left]
  rw [List.append_cons, List.drop_left' (show (mid ++ [(']')]).length = mid.length + 1 by simp)]
  congr 1
  apply cScanF_congr
  · simp only [List.length_append, List.length_cons]
    omega
  · exact Nat.le_refl _

/-- General form of the conceptual-image extraction: a well-formed directive
preceded by bracket-free text yields exactly one candidate carrying the
trimmed enclosed text, and scanning continues after the closing bracket. -/
theorem conceptualScan_general (pre mid post : List Char) (h0 : ('[') ∉ pre)
    (h1 : mid ≠ []) (h2 : (']') ∉ mid) :
    conceptualScan (pre ++ (cvTagU ++ (mid ++ (']') :: post)))
      = trimList mid :: conceptualScan post := by
  induction pre with
  | nil =>
    rw [List.nil_append]
    exact conceptualScan_head mid post h1 h2
  | cons c pre ih =>
    have hc : c ≠ ('[') := fun he => h0 (he ▸ List.mem_cons_self c pre)
    rw [List.cons_append,
      conceptualScan_cons_of_ne c _ (isPrefixCI_cvTag_ne_bracket c _ hc)]
    exact ih (fun hx => h0 (List.mem_cons_of_mem c hx))

theorem filterMap_ext {α β : Type} (l : List α) (f g : α → Option β)
    (h : ∀ a, f a = g a) : l.filterMap f = l.filterMap g := by
  induction l with
  | nil => rfl
  | cons a l ih => simp only [List.filterMap_cons, h, ih]

/-- Closed form of the sequential image-request resolution: the `k`-th
candidate (0-based, in extraction order) produces an item exactly when the
`k`-th generation call returns an image, and the items keep that order. -/
theorem conceptLoop_items (gen : Nat → GenResult) (hasAistudio : Bool) :
    ∀ ps i, (conceptLoop gen hasAistudio ps i).1
      = (List.range ps.length).filterMap (fun k =>
          match gen (i + k) with
          | GenResult.ok img => some (⟨VKind.image, img⟩ : VisualItem)
          | _ => none) := by
  intro ps
  induction ps with
  | nil => intro i; rfl
  | cons p ps ih =>
    intro i
    rw [show (conceptLoop gen hasAistudio (p :: ps) i).1
        = (processConceptual (gen i) hasAistudio).1 ++ (conceptLoop gen hasAistudio ps (i + 1)).1
      from rfl]
    rw [List.length_cons, List.range_succ_eq_map, List.filterMap_cons, List.filterMap_map,
      ih (i + 1)]
    rw [filterMap_ext (List.range ps.length)
      ((fun k => match gen (i + k) with
        | GenResult.ok img => some (⟨VKind.image, img⟩ : VisualItem)
        | _ => none) ∘ (· + 1))
      (fun k => match gen (i + 1 + k) with
        | GenResult.ok img => some (⟨VKind.image, img⟩ : VisualItem)
        | _ => none)
      (fun k => by
        simp only [Function.comp_apply]
        rw [show i + (k + 1) = i + 1 + k by omega])]
    cases hg : gen (i + 0) with
    | ok img =>
      rw [show i + 0 = i from rfl] at hg
      simp [processConceptual, hg]
    | empty =>
      rw [show i + 0 = i from rfl] at hg
      simp [processConceptual, hg]
    | err a =>
      rw [show i + 0 = i from rfl] at hg
      simp [processConceptual, hg]

theorem filterMap_trim_filter (l : List (List Char)) (p : List Char → Bool) :
    l.filterMap (fun g =>
      let c := trimList g
      if p c then some c else none)
      = (l.map trimList).filter p := by
  induction l with
  | nil => rfl
  | cons g l ih =>
    simp only [List.filterMap_cons, List.map_cons, List.filter_cons]
    by_cases h : p (trimList g) = true
    · simp only [h, if_true, ih]
    · simp only [h, if_false, ih, Bool.false_eq_true]

/-- C3 (`error_handling`): processing one conceptual-image candidate is a
total function (`processConceptual`: no exception escapes).  The in-progress
flag is `false` after the candidate on every exit path (success, empty
result, thrown error).  A successful call yields exactly one image item; an
empty result or a thrown error yields zero items; a thrown error triggers the
key-selection flow exactly when it carries the authorization-denied signal
and the key-selection collaborator (`window.aistudio`) is present.  At the
extraction level, the flag is `false` after any extraction that processed at
least one candidate, and untouched otherwise. -/
theorem claim_C3 :
    (∀ gr hasAistudio, (processConceptual gr hasAistudio).2.2 = false)
    ∧ (∀ img hasAistudio,
        processConceptual (GenResult.ok img) hasAistudio
          = ([(⟨VKind.image, img⟩ : VisualItem)], false, false))
    ∧ (∀ hasAistudio, processConceptual GenResult.empty hasAistudio = ([], false, false))
    ∧ (∀ a hasAistudio,
        processConceptual (GenResult.err a) hasAistudio = ([], hasAistudio && a, false))
    ∧ (∀ st text ip gen hasAistudio,
        (extractVisualization st text ip gen hasAistudio).1.isGeneratingImage
          = if (conceptualScan text).isEmpty then st.isGeneratingImage else false) := by
  refine ⟨fun gr hasA => ?_, fun img hasA => rfl, fun hasA => rfl, fun a hasA => rfl,
    fun st text ip gen hasA => rfl⟩
  cases gr <;> rfl

/-- C5 (`functional_correctness`): for every fenced code-like region the
Extractor emits exactly one diagram candidate, with content the trimmed inner
text, iff that trimmed content starts with a diagram keyword or contains
`-->`; a `flowchart` block and a `-->` block each yield their one candidate,
while a block containing only `print("hello")` is a fenced region yielding no
candidate (and extraction is total, so no error). -/
theorem claim_C5 :
    (∀ text, mermaidItems text
      = ((fencedRegions text).map trimList).filter isDiagramContent)
    ∧ mermaidItems (s2l ("```mermaid\nflowchart TD; A-->B\n```"))
        = [s2l ("flowchart TD; A-->B")]
    ∧ mermaidItems (s2l ("Here\n```\nX --> Y\n```\ndone")) = [s2l ("X --> Y")]
    ∧ fencedRegions (s2l ("```\nprint(\"hello\")\n```")) = [s2l ("print(\"hello\")\n")]
    ∧ mermaidItems (s2l ("```\nprint(\"hello\")\n```")) = [] := by
  refine ⟨fun text => ?_, by decide, by decide, by decide, by decide⟩
  exact filterMap_trim_filter (fencedRegions text) isDiagramContent

/-- C6 (`functional_correctness`): every occurrence of the inline shape
`[CONCEPTUAL_VISUAL: <free text>]` (case-insensitive tag, content up to the
closing bracket) yields exactly one image-request candidate whose payload is
the enclosed text trimmed; `Use [CONCEPTUAL_VISUAL: a red cube] here` yields
exactly one candidate with payload `a red cube` (also with a lowercase tag);
an occurrence with a missing closing bracket yields no candidate, and the
scanner is a total function (never throws). -/
theorem claim_C6 :
    (∀ pre mid post : List Char, ('[') ∉ pre → mid ≠ [] → (']') ∉ mid →
      conceptualScan (pre ++ (cvTagU ++ (mid ++ (']') :: post)))
        = trimList mid :: conceptualScan post)
    ∧ conceptualScan (s2l ("Use [CONCEPTUAL_VISUAL: a red cube] here"))
        = [s2l ("a red cube")]
    ∧ conceptualScan (s2l ("Use [conceptual_visual: a red cube] here"))
        = [s2l ("a red cube")]
    ∧ conceptualScan (s2l ("Use [CONCEPTUAL_VISUAL: a red cube here")) = [] :=
  ⟨conceptualScan_general, by decide, by decide, by decide⟩

/-- Witness for C6: the general statement applied at the example occurrence
`Use [CONCEPTUAL_VISUAL: a red cube] here`. -/
theorem claim_C6_witness :
    (('[') ∉ s2l ("Use ") ∧ s2l (" a red cube") ≠ [] ∧ (']') ∉ s2l (" a red cube"))
    ∧ conceptualScan (s2l ("Use ")
        ++ (cvTagU ++ (s2l (" a red cube") ++ (']') :: s2l (" here"))))
      = trimList (s2l (" a red cube")) :: conceptualScan (s2l (" here")) :=
  ⟨⟨by decide, by decide, by decide⟩,
    claim_C6.1 (s2l ("Use ")) (s2l (" a red cube")) (s2l (" here"))
      (by decide) (by decide) (by decide)⟩

/-- C7 (`functional_correctness`): one extraction pass appends, in this
order: all diagram candidates (document order), then the inline image part if
present, then the items of the image-request candidates (document order) —
the two extracted kinds are never interleaved; and the image requests are
resolved strictly one at a time in extraction order, the `k`-th candidate
consuming the `k`-th generation call. -/
theorem claim_C7 :
    (∀ st text ip gen hasAistudio,
      (extractVisualization st text ip gen hasAistudio).1.visualization
        = st.visualization
          ++ (mermaidItems text).map (fun c => (⟨VKind.mermaid, c⟩ : VisualItem))
          ++ (match ip with
              | some p => [(⟨VKind.image, p⟩ : VisualItem)]
              | none => [])
          ++ (conceptLoop gen hasAistudio (conceptualScan text) 0).1)
    ∧ (∀ gen hasAistudio ps i, (conceptLoop gen hasAistudio ps i).1
        = (List.range ps.length).filterMap (fun k =>
            match gen (i + k) with
            | GenResult.ok img => some (⟨VKind.image, img⟩ : VisualItem)
            | _ => none)) := by
  constructor
  · intro st text ip gen hasA
    simp only [extractVisualization]
    split
    · rename_i hemp
      rw [List.isEmpty_iff, List.append_eq_nil, List.append_eq_nil] at hemp
      obtain ⟨⟨e1, e2⟩, e3⟩ := hemp
      rw [e1, e2, e3]
      simp
    · simp [List.append_assoc]
  · exact fun gen hasA ps i => conceptLoop_items gen hasA ps i

/-- C8 (`functional_correctness`): a text with no fenced region marker and no
conceptual-image tag — and no inline image payload — produces an empty
candidate list, and the extraction pass leaves the state (in particular the
visualization feed) unchanged. -/
theorem claim_C8 (text : List Char)
    (hf : containsSeq bt3 text = false)
    (hc : containsCI cvTag text = false)
    (st : AppState) (gen : Nat → GenResult) (hasAistudio : Bool) :
    fencedRegions text = [] ∧ conceptualScan text = []
      ∧ extractVisualization st text none gen hasAistudio = (st, 0) := by
  have h1 : fencedRegions text = [] := fScanF_nil_of_no_fence text.length text hf
  have h2 : conceptualScan text = [] := cScanF_nil_of_no_tag text.length text hc
  refine ⟨h1, h2, ?_⟩
  simp [extractVisualization, mermaidItems, h1, h2, conceptLoop]

/-- Witness for C8: the empty input. -/
theorem claim_C8_witness :
    (containsSeq bt3 [] = false ∧ containsCI cvTag [] = false)
    ∧ (fencedRegions [] = [] ∧ conceptualScan [] = []
        ∧ extractVisualization testState [] none genEmpty false = (testState, 0)) :=
  ⟨⟨by decide, by decide⟩, claim_C8 [] (by decide) (by decide) testState genEmpty false⟩

/-- C9 (`error_handling`): a submission whose text is empty or whitespace-only
is a complete no-op — no message appended, no backend call, no toast, no state
change at all — regardless of everything else (in particular the gate is never
reached). -/
theorem claim_C9 (st : AppState) (input : List Char) (customPrompt : Option (List Char))
    (backend : BackendOutcome) (gen : Nat → GenResult) (hasAistudio : Bool)
    (h : (trimList (submittedText input customPrompt)).isEmpty = true) :
    handleSendMessage st input customPrompt backend gen hasAistudio = ⟨st, false, 0⟩ := by
  unfold handleSendMessage
  simp [h]

/-- Witness for C9: a whitespace-only user submission. -/
theorem claim_C9_witness :
    (trimList (submittedText (s2l ("   ")) none)).isEmpty = true
    ∧ handleSendMessage testState (s2l ("   ")) none BackendOutcome.err genEmpty false
        = ⟨testState, false, 0⟩ :=
  ⟨by decide,
    claim_C9 testState (s2l ("   ")) none BackendOutcome.err genEmpty false (by decide)⟩

/-- C1 counterexample: the claim's own wording of the heuristic — a verb
followed *later in the text* by a noun — is satisfied by `show me\nthe code`
(verb `show`, noun `code` later in the text, no mitigating word), yet the Turn
Controller does **not** refuse this submission: the cheat regex has no `s`
flag, so its `.*` cannot cross the line break, the gate does not fire, a
Message is appended and the backend is called. -/
theorem claim_C1_counterexample :
    specCheatHeuristic (s2l ("show me\nthe code")) = true
    ∧ containsCI (s2l ("logic")) (s2l ("show me\nthe code")) = false
    ∧ containsCI (s2l ("explain")) (s2l ("show me\nthe code")) = false
    ∧ containsCI (s2l ("diagram")) (s2l ("show me\nthe code")) = false
    ∧ cheatScan (s2l ("show me\nthe code")) = false
    ∧ (handleSendMessage testState (s2l ("show me\nthe code")) none
        BackendOutcome.err genEmpty false).backendCalled = true
    ∧ (handleSendMessage testState (s2l ("show me\nthe code")) none
        BackendOutcome.err genEmpty false).state.messages
      = [(⟨Role.user, s2l ("show me\nthe code")⟩ : Msg),
         (⟨Role.model, backendErrorText⟩ : Msg)] := by
  refine ⟨by decide, by decide, by decide, by decide, by decide, by decide, by decide⟩

/-- C1 (amended): for every user-submitted (non-system) message whose text
matches the requesting-finished-code heuristic *with the verb and the noun on
the same line* (a give/write/show verb followed later on the same line — no
line terminator between — by code/answer/solution/full, case-insensitive) and
that does not contain logic/explain/diagram, the Turn Controller refuses the
turn: no Message is appended, no backend call is made, only the rejection
toast is surfaced, and the controller stays Idle.  A submission flagged as a
system-generated prompt (a non-blank custom prompt) bypasses this gate and
always proceeds to the backend call.  In particular `give me the full code`
is rejected and `give me the full code, explain the logic` is not. -/
theorem claim_C1 :
    (∀ st t backend gen hasAistudio, cheatGate t = true →
      handleSendMessage st t none backend gen hasAistudio
        = ⟨{ st with toastMessage := rejectToastText, showToast := true }, false, 0⟩)
    ∧ (∀ st input s backend gen hasAistudio, (trimList s).isEmpty = false →
        (handleSendMessage st input (some s) backend gen hasAistudio).backendCalled = true)
    ∧ cheatGate (s2l ("give me the full code")) = true
    ∧ cheatGate (s2l ("give me the full code, explain the logic")) = false
    ∧ (handleSendMessage testState (s2l ("give me the full code")) none
        BackendOutcome.err genEmpty false).backendCalled = false
    ∧ (handleSendMessage testState (s2l ("give me the full code")) none
        BackendOutcome.err genEmpty false).state.messages = testState.messages
    ∧ (handleSendMessage testState (s2l ("give me the full code, explain the logic")) none
        BackendOutcome.err genEmpty false).backendCalled = true := by
  refine ⟨?_, ?_, by decide, by decide, by decide, by decide, by decide⟩
  · intro st t backend gen hasA hg
    have hb : (trimList t).isEmpty = false := cheatGate_not_blank t hg
    simp only [handleSendMessage]
    rw [if_neg (by simp [submittedText, hb])]
    rw [if_pos (by simp [submittedText, isCustomPrompt, hg])]
  · intro st input s backend gen hasA htrim
    have hs : s.isEmpty = false := by
      cases s with
      | nil => simp [trimList] at htrim
      | cons a l => rfl
    simp only [handleSendMessage]
    have hsub : submittedText input (some s) = s := by
      simp [submittedText, hs]
    rw [hsub]
    rw [if_neg (by simp [htrim])]
    rw [if_neg (by simp [isCustomPrompt, hs])]
    cases backend <;> rfl

/-- Witness for C1: the gate clause applied at `give me the full code`, and
the bypass clause applied at the quick-action prompt
`Explain this using a real-world analogy.`. -/
theorem claim_C1_witness :
    (cheatGate (s2l ("give me the full code")) = true
      ∧ handleSendMessage testState (s2l ("give me the full code")) none
          BackendOutcome.err genEmpty false
        = ⟨{ testState with toastMessage := rejectToastText, showToast := true }, false, 0⟩)
    ∧ ((trimList (s2l ("Explain this using a real-world analogy."))).isEmpty = false
      ∧ (handleSendMessage testState [] (some (s2l ("Explain this using a real-world analogy.")))
          BackendOutcome.err genEmpty false).backendCalled = true) :=
  ⟨⟨by decide,
      claim_C1.1 testState (s2l ("give me the full code")) BackendOutcome.err genEmpty false
        (by decide)⟩,
    ⟨by decide,
      claim_C1.2.1 testState [] (s2l ("Explain this using a real-world analogy."))
        BackendOutcome.err genEmpty false (by decide)⟩⟩

/-- C2 (`functional_correctness`): after a successful chat-backend turn (the
backend was actually called and resolved), MentorState follows the declared
mentor status exactly: `satisfied` sets it, `searching` clears it, and when no
status is declared it is unchanged. -/
theorem claim_C2 (st : AppState) (input : List Char) (customPrompt : Option (List Char))
    (rtext : List Char) (ms : Option MentorStatus) (ip : Option (List Char))
    (gen : Nat → GenResult) (hasAistudio : Bool)
    (h : (handleSendMessage st input customPrompt (BackendOutcome.ok rtext ms ip)
        gen hasAistudio).backendCalled = true) :
    (handleSendMessage st input customPrompt (BackendOutcome.ok rtext ms ip)
        gen hasAistudio).state.mentorMode
      = match ms with
        | some MentorStatus.satisfied => true
        | some MentorStatus.searching => false
        | none => st.mentorMode := by
  simp only [handleSendMessage] at h ⊢
  by_cases h1 : (trimList (submittedText input customPrompt)).isEmpty = true
  · rw [if_pos h1] at h
    simp at h
  · rw [if_neg h1] at h ⊢
    by_cases h2 : (!(isCustomPrompt customPrompt)
        && cheatGate (submittedText input customPrompt)) = true
    · rw [if_pos h2] at h
      simp at h
    · rw [if_neg h2] at h ⊢
      cases ms with
      | none => rfl
      | some s => cases s <;> rfl

/-- Witness for C2: a successful backend turn declaring `satisfied` flips
MentorState to satisfied. -/
theorem claim_C2_witness :
    (handleSendMessage testState (s2l ("Explain recursion")) none
        (BackendOutcome.ok (s2l ("ok")) (some MentorStatus.satisfied) none)
        genEmpty false).backendCalled = true
    ∧ (handleSendMessage testState (s2l ("Explain recursion")) none
        (BackendOutcome.ok (s2l ("ok")) (some MentorStatus.satisfied) none)
        genEmpty false).state.mentorMode = true :=
  ⟨by decide,
    claim_C2 testState (s2l ("Explain recursion")) none (s2l ("ok"))
      (some MentorStatus.satisfied) none genEmpty false (by decide)⟩

/-- C4 (`error_handling`): on any failure of the chat-backend call the Turn
Controller appends (after the user message of the turn) exactly one assistant
error Message with the fixed text, leaves MentorState unchanged, and returns
to Idle (`isLoading = false`); the success exit clears the in-flight state
too, so no backend call leaves the system awaiting forever. -/
theorem claim_C4 :
    (∀ st input customPrompt gen hasAistudio,
      (handleSendMessage st input customPrompt BackendOutcome.err gen
          hasAistudio).backendCalled = true →
        (handleSendMessage st input customPrompt BackendOutcome.err gen
            hasAistudio).state.messages
          = st.messages ++ [(⟨Role.user, submittedText input customPrompt⟩ : Msg),
              (⟨Role.model, backendErrorText⟩ : Msg)]
        ∧ (handleSendMessage st input customPrompt BackendOutcome.err gen
            hasAistudio).state.mentorMode = st.mentorMode
        ∧ (handleSendMessage st input customPrompt BackendOutcome.err gen
            hasAistudio).state.isLoading = false)
    ∧ (∀ st input customPrompt rtext ms ip gen hasAistudio,
        (handleSendMessage st input customPrompt (BackendOutcome.ok rtext ms ip) gen
            hasAistudio).backendCalled = true →
        (handleSendMessage st input customPrompt (BackendOutcome.ok rtext ms ip) gen
            hasAistudio).state.isLoading = false) := by
  constructor
  · intro st input customPrompt gen hasA h
    simp only [handleSendMessage] at h ⊢
    by_cases h1 : (trimList (submittedText input customPrompt)).isEmpty = true
    · rw [if_pos h1] at h
      simp at h
    · rw [if_neg h1] at h ⊢
      by_cases h2 : (!(isCustomPrompt customPrompt)
          && cheatGate (submittedText input customPrompt)) = true
      · rw [if_pos h2] at h
        simp at h
      · rw [if_neg h2] at h ⊢
        refine ⟨?_, rfl, rfl⟩
        simp [List.append_assoc]
  · intro st input customPrompt rtext ms ip gen hasA h
    simp only [handleSendMessage] at h ⊢
    by_cases h1 : (trimList (submittedText input customPrompt)).isEmpty = true
    · rw [if_pos h1] at h
      simp at h
    · rw [if_neg h1] at h ⊢
      by_cases h2 : (!(isCustomPrompt customPrompt)
          && cheatGate (submittedText input customPrompt)) = true
      · rw [if_pos h2] at h
        simp at h
      · rw [if_neg h2] at h ⊢

/-- Witness for C4: a failing backend call on a real submission. -/
theorem claim_C4_witness :
    ((handleSendMessage testState (s2l ("hi there")) none BackendOutcome.err
        genEmpty false).backendCalled = true
      ∧ (handleSendMessage testState (s2l ("hi there")) none BackendOutcome.err
          genEmpty false).state.messages
        = testState.messages ++ [(⟨Role.user, submittedText (s2l ("hi there")) none⟩ : Msg),
            (⟨Role.model, backendErrorText⟩ : Msg)]
      ∧ (handleSendMessage testState (s2l ("hi there")) none BackendOutcome.err
          genEmpty false).state.mentorMode = testState.mentorMode
      ∧ (handleSendMessage testState (s2l ("hi there")) none BackendOutcome.err
          genEmpty false).state.isLoading = false)
    ∧ (handleSendMessage testState (s2l ("hi there")) none
        (BackendOutcome.ok (s2l ("ok")) none none) genEmpty false).state.isLoading = false :=
  ⟨⟨by decide,
      claim_C4.1 testState (s2l ("hi there")) none genEmpty false (by decide)⟩,
    claim_C4.2 testState (s2l ("hi there")) none (s2l ("ok")) none none genEmpty false
      (by decide)⟩

theorem foldl_status_no_update (l : List FnCall) (a : Option MentorStatus)
    (h : ∀ c ∈ l, c.name ≠ updateMentorStatusName) :
    l.foldl (fun acc c => if c.name = updateMentorStatusName then some c.statusArg else acc) a
      = a := by
  induction l generalizing a with
  | nil => rfl
  | cons c l ih =>
    rw [List.foldl_cons, if_neg (h c (List.mem_cons_self c l))]
    exact ih a (fun d hd => h d (List.mem_cons_of_mem c hd))

/-- The status loop keeps the status of the last `updateMentorStatus` call. -/
theorem mentorStatus_last (l1 : List FnCall) (c : FnCall) (l2 : List FnCall)
    (hc : c.name = updateMentorStatusName)
    (h2 : ∀ d ∈ l2, d.name ≠ updateMentorStatusName) :
    mentorStatusOfCalls (l1 ++ c :: l2) = some c.statusArg := by
  unfold mentorStatusOfCalls
  rw [List.foldl_append, List.foldl_cons, if_pos hc]
  exact foldl_status_no_update l2 _ h2

theorem mentorStatus_some_ne_nil (l : List FnCall) (s : MentorStatus)
    (h : mentorStatusOfCalls l = some s) : l ≠ [] := by
  intro he
  rw [he] at h
  simp [mentorStatusOfCalls] at h

theorem joinedText_aux (parts : List RespPart) (h : ∀ p ∈ parts, p.text = none) :
    ∀ acc, parts.foldl
      (fun acc p =>
        match p.text with
        | some t => if t.isEmpty then acc else acc ++ t
        | none => acc) acc = acc := by
  induction parts with
  | nil => intro acc; rfl
  | cons p ps ih =>
    intro acc
    rw [List.foldl_cons]
    have hp : p.text = none := h p (List.mem_cons_self p ps)
    rw [hp]
    exact ih (fun q hq => h q (List.mem_cons_of_mem p hq)) acc

/-- C10 (`functional_correctness`): the chat-backend wrapper never returns
empty text together with a declared mentor status; when the raw response
holds at least one `updateMentorStatus` function call but no text part, the
returned text is the fixed sentence; and with several `updateMentorStatus`
calls, the status of the last one is returned. -/
theorem claim_C10 :
    (∀ parts : List RespPart, ∀ s : MentorStatus,
      (sendMessageToGeminiPost parts).mentorStatus = some s →
        ((sendMessageToGeminiPost parts).text).isEmpty = false)
    ∧ (∀ parts : List RespPart,
        (∃ c ∈ partFunctionCalls parts, c.name = updateMentorStatusName) →
        (∀ p ∈ parts, p.text = none) →
        (sendMessageToGeminiPost parts).text = statusUpdateSentence)
    ∧ (∀ (parts : List RespPart) (l1 : List FnCall) (c : FnCall) (l2 : List FnCall),
        partFunctionCalls parts = l1 ++ c :: l2 →
        c.name = updateMentorStatusName →
        (∀ d ∈ l2, d.name ≠ updateMentorStatusName) →
        (sendMessageToGeminiPost parts).mentorStatus = some c.statusArg) := by
  refine ⟨?_, ?_, ?_⟩
  · intro parts s h
    simp only [sendMessageToGeminiPost] at h ⊢
    have hne : partFunctionCalls parts ≠ [] := mentorStatus_some_ne_nil _ s h
    have hcalls : (partFunctionCalls parts).isEmpty = false := by
      cases hp : partFunctionCalls parts with
      | nil => exact absurd hp hne
      | cons a l => rfl
    by_cases ht : (joinedText parts).isEmpty = true
    · rw [hcalls, ht]
      simp
      decide
    · rw [hcalls]
      simp only [Bool.not_false, Bool.true_and]
      rw [if_neg (by simp [ht])]
      exact eq_false_of_ne_true ht
  · intro parts hex hnone
    obtain ⟨c, hcmem, _⟩ := hex
    have hne : partFunctionCalls parts ≠ [] := List.ne_nil_of_mem hcmem
    have hcalls : (partFunctionCalls parts).isEmpty = false := by
      cases hp : partFunctionCalls parts with
      | nil => exact absurd hp hne
      | cons a l => rfl
    have ht : joinedText parts = [] := joinedText_aux parts hnone []
    simp only [sendMessageToGeminiPost, hcalls, ht]
    simp
  · intro parts l1 c l2 heq hc h2
    simp only [sendMessageToGeminiPost]
    rw [heq]
    exact mentorStatus_last l1 c l2 hc h2

/-- A function call declared with the `updateMentorStatus` name and status
`searching`, for the witness. -/
def testCallA : FnCall := ⟨updateMentorStatusName, MentorStatus.searching⟩

/-- A function call declared with the `updateMentorStatus` name and status
`satisfied`, for the witness. -/
def testCallB : FnCall := ⟨updateMentorStatusName, MentorStatus.satisfied⟩

/-- A raw response with two `updateMentorStatus` calls and no text part. -/
def testParts : List RespPart :=
  [⟨none, some testCallA, none⟩, ⟨none, some testCallB, none⟩]

/-- Witness for C10: two status calls, no text part — the fixed sentence is
returned and the last declared status wins. -/
theorem claim_C10_witness :
    (sendMessageToGeminiPost testParts).text = statusUpdateSentence
    ∧ (sendMessageToGeminiPost testParts).mentorStatus = some MentorStatus.satisfied :=
  ⟨claim_C10.2.1 testParts ⟨testCallB, by decide, by decide⟩ (by decide),
    claim_C10.2.2 testParts [testCallA] testCallB [] (by decide) (by decide) (by decide)⟩
